import Mathlib

/-!
Verification development for the PyGui repository (TheBarret/PyGui).

This file gives a shallow embedding, in Lean 4, of the parts of the
program that the specification's testable claims talk about:

* the address bus (`src/bus.py`): packet values, the bounded FIFO queue,
  `post`, and `pump` with unicast/broadcast delivery;
* the component message handler (`src/component.py`, `handle_message`);
* component-tree geometry (`src/component.py`, `get_absolute_rect`);
* the child-list / parent-pointer management (`src/component.py`,
  `add` / `remove`);
* the event-processing state machine (`src/component.py`,
  `process_event` / `deactivate_container`, and the variant in
  `src/chain.py`, `Dispatcher._handle_mouse_click`);
* the destroy lifecycle (`src/component.py` `destroy`,
  `src/window.py` `Window.destroy`);
* window dragging and edge snapping (`src/window.py`,
  `process_event` / `hitbox_test` / `snap_on`).

Machine integers in the Python source are unbounded (`int`), so they are
embedded as `Int`.  Fallible attribute access is embedded with `Except`.
-/

namespace PyGui

/-! ## Bus data model (src/bus.py) -/

/-- Multicast address sentinel, `BROADCAST = -1` in src/bus.py line 10. -/
def BROADCAST : Int := -1

/-- The `Response` enumeration of src/bus.py (message codes). -/
inductive Response where
  | M_OK | M_ERR | M_BUSY | M_CANCEL
  | M_PING | M_PONG
  | M_REDRAW | M_SHUTDOWN | M_THEME | M_CONTRAST
  | M_BYE | M_LOCK | M_SNAP | M_PULSE
  deriving DecidableEq, Repr

/-- An envelope (`Packet` dataclass in src/bus.py): receiver address,
sender address, response code, and a payload.  The payload is opaque to
all the routing logic; it is embedded as a `Nat` token. -/
structure Packet where
  receiver : Int
  sender : Int
  rs : Response := Response.M_OK
  data : Nat := 0
  deriving DecidableEq, Repr

/-- The state of an `AddressBus` (src/bus.py): the pending message queue
`_messages`, the registry of registered component addresses
`_components` (in registration order; only the addresses matter to the
routing logic), and `_max_queue_size`. -/
structure AddressBus where
  messages : List Packet
  components : List Int
  maxQueueSize : Nat
  deriving DecidableEq, Repr

/-- Default `max_queue_size` of `AddressBus.__init__` (src/bus.py). -/
def defaultMaxQueueSize : Nat := 255

/-- Embedding of `AddressBus.post` (src/bus.py lines 79-84): append the message if the
queue is not full, reporting `False` (and leaving the bus unchanged)
when `len(self._messages) >= self._max_queue_size`. -/
def AddressBus.post (b : AddressBus) (m : Packet) : Bool × AddressBus :=
  if b.maxQueueSize ≤ b.messages.length then
    (false, b)
  else
    (true, { b with messages := b.messages ++ [m] })

/-- The behaviour of a component's message handler, as far as the bus is
concerned, is a function from the component's address and the received
packet to the list of packets the handler posts in response.  `pump` is
parametrised over this so that theorems quantify over handler
behaviour. -/
def Handler : Type := Int → Packet → List Packet

/-- Delivering a message to the component at address `a`: the handler
runs and each packet it emits is posted back onto the bus through
`AddressBus.post` (handlers in the source call `hoster.bus.post`). -/
def postAll (H : Handler) (a : Int) (m : Packet) (b : AddressBus) : AddressBus :=
  (H a m).foldl (fun s p => (AddressBus.post s p).2) b

/-- Broadcast delivery loop of `pump` (src/bus.py lines 96-102): deliver
`m` to each component of the snapshot `targets`, in order, recording the
(address, packet) pairs delivered. -/
def deliverList (H : Handler) : List Int → Packet → AddressBus →
    AddressBus × List (Int × Packet)
  | [], _, b => (b, [])
  | a :: rest, m, b =>
      let r := deliverList H rest m (postAll H a m b)
      (r.1, (a, m) :: r.2)

/-- Processing of one message inside `pump`'s loop (src/bus.py lines
95-108): a `BROADCAST` receiver is delivered to a snapshot of all
currently registered components; otherwise the message is delivered to
the component at the receiver address if it is registered, and silently
dropped if not. -/
def pumpMsg (H : Handler) (b : AddressBus) (m : Packet) :
    AddressBus × List (Int × Packet) :=
  if m.receiver = BROADCAST then
    deliverList H b.components m b
  else if m.receiver ∈ b.components then
    (postAll H m.receiver m b, [(m.receiver, m)])
  else
    (b, [])

/-- The `for msg in queue` loop of `pump` (src/bus.py lines 95-108). -/
def pumpLoop (H : Handler) : AddressBus → List Packet →
    AddressBus × List (Int × Packet)
  | b, [] => (b, [])
  | b, m :: rest =>
      let r1 := pumpMsg H b m
      let r2 := pumpLoop H r1.1 rest
      (r2.1, r1.2 ++ r2.2)

/-- Embedding of `AddressBus.pump` (src/bus.py lines 87-108): if the queue is empty,
return; otherwise swap the queue for an empty one and process the
snapshot in FIFO order.  The result is the new bus state together with
the list of (address, packet) deliveries performed, in order.  In the
source, handlers never register or unregister components (`destroy` does
not touch the bus registry), so the registry is constant during a pump
and the per-broadcast snapshot `targets = list(self._components.values())`
always equals the registry at pump start. -/
def AddressBus.pump (H : Handler) (b : AddressBus) :
    AddressBus × List (Int × Packet) :=
  if b.messages = [] then
    (b, [])
  else
    pumpLoop H { b with messages := [] } b.messages

/-- Embedding of `AddressBus.peek` (src/bus.py lines 112-117). -/
def AddressBus.peek (b : AddressBus) (address : Int) : List Packet :=
  b.messages.filter (fun m => m.receiver = address || m.receiver = BROADCAST)

/-! ## Component message handler (src/component.py lines 70-83) -/

/-- Address held by a freshly constructed component:
`self.address = -1` in `Component.__init__` (src/component.py line 20). -/
def componentInitialAddress : Int := -1

/-- What `Component.handle_message` does, beyond posting:
whether it destroys the component and whether it calls `reset`. -/
structure HandleResult where
  posts : List Packet
  destroyed : Bool
  didReset : Bool
  deriving DecidableEq, Repr

/-- Embedding of `Component.handle_message` (src/component.py lines 70-83), for a
component whose root is resolvable: a message whose sender equals the
component's own address is ignored (loopback avoidance); `M_PING` is
answered with an `M_PONG` to the sender carrying metadata; `M_SHUTDOWN`
destroys the component; `M_REDRAW` is answered with `M_OK` and the
component resets.  The metadata payload is embedded as the opaque token
`0`. -/
def componentHandleMessage (selfAddr : Int) (msg : Packet) : HandleResult :=
  if msg.sender = selfAddr then
    ⟨[], false, false⟩
  else if msg.rs = Response.M_PING then
    ⟨[{ receiver := msg.sender, sender := selfAddr, rs := Response.M_PONG }], false, false⟩
  else if msg.rs = Response.M_SHUTDOWN then
    ⟨[], true, false⟩
  else if msg.rs = Response.M_REDRAW then
    ⟨[{ receiver := msg.sender, sender := selfAddr, rs := Response.M_OK }], false, true⟩
  else
    ⟨[], false, false⟩

/-! ## Component geometry (src/component.py lines 87-94) -/

/-- A `pygame.Rect` as used by the components: integer origin and size. -/
structure Rect where
  x : Int
  y : Int
  w : Int
  h : Int
  deriving DecidableEq, Repr

/-- A component as seen by `get_absolute_rect`: its local rectangle and
its (acyclic) chain of parents, the `parent` field of src/component.py
folded into the two constructors (`parent is None` / `parent` set). -/
inductive CompG where
  | top (rect : Rect)
  | sub (rect : Rect) (parent : CompG)

/-- Local rectangle of a geometry node. -/
def CompG.rectOf : CompG → Rect
  | .top r => r
  | .sub r _ => r

/-- The `while parent:` loop of `get_absolute_rect` (src/component.py
lines 90-93): starting from the accumulated `(x, y)`, add the local
origin of the current ancestor and continue with its parent. -/
def absFrom : CompG → Int → Int → Int × Int
  | .top pr, x, y => (x + pr.x, y + pr.y)
  | .sub pr pp, x, y => absFrom pp (x + pr.x) (y + pr.y)

/-- Embedding of `Component.get_absolute_rect` (src/component.py lines 87-94):
`x, y = self.rect.topleft`, then the parent-chain loop, keeping the
local width and height. -/
def CompG.getAbsoluteRect : CompG → Rect
  | .top r => r
  | .sub r p =>
      let xy := absFrom p r.x r.y
      ⟨xy.1, xy.2, r.w, r.h⟩

/-- The rectangles of the ancestors of a node, nearest parent first. -/
def CompG.ancestorRects : CompG → List Rect
  | .top _ => []
  | .sub _ p => p.rectOf :: p.ancestorRects

/-! ## Child-list management (src/component.py lines 38-48)

The tree-mutation claims quantify over arbitrary heaps of components, so
the child lists and parent pointers are embedded as one explicit state:
components are identified by natural numbers, `children p` is the
ordered child list of component `p`, and `parent c` is the parent
back-reference of component `c`. -/

structure TreeState where
  children : Nat → List Nat
  parent : Nat → Option Nat

/-- Embedding of `Component.remove` (src/component.py lines 44-48), invoked as
`q.remove(c)`: if `c` is in `q`'s child list, delete its first
occurrence (`list.remove`) and null `c`'s parent reference; otherwise do
nothing. -/
def removeChild (q c : Nat) (s : TreeState) : TreeState :=
  if c ∈ s.children q then
    { children := fun p => if p = q then (s.children q).erase c else s.children p,
      parent := fun d => if d = c then none else s.parent d }
  else s

/-- Embedding of `Component.add` (src/component.py lines 38-42), invoked as
`p.add(c)`: if `c` has a parent, first `c.parent.remove(c)`; then append
`c` to `p`'s child list and set `c.parent = p`. -/
def addChild (p c : Nat) (s : TreeState) : TreeState :=
  let s1 := match s.parent c with
    | some q => removeChild q c s
    | none => s
  { children := fun r => if r = p then s1.children p ++ [c] else s1.children r,
    parent := fun d => if d = c then some p else s1.parent d }

/-- A tree-mutation operation: `p.add(c)` or `p.remove(c)`. -/
inductive TreeOp where
  | add (p c : Nat)
  | rem (p c : Nat)

/-- Apply one operation to the tree state. -/
def applyOp (s : TreeState) : TreeOp → TreeState
  | .add p c => addChild p c s
  | .rem p c => removeChild p c s

/-- Apply a sequence of operations, left to right. -/
def applyOps (ops : List TreeOp) (s : TreeState) : TreeState :=
  ops.foldl applyOp s

/-- Each component appears in at most one child list (the property named
by the claim's precondition). -/
def AtMostOneParent (s : TreeState) : Prop :=
  ∀ c p q, c ∈ s.children p → c ∈ s.children q → p = q

/-- Parent back-references agree with the child lists: a component's
parent reference points to a parent whose list contains it, and a
component with a null parent reference is in no child list. -/
def ParentConsistent (s : TreeState) : Prop :=
  ∀ c, (∀ p, s.parent c = some p → c ∈ s.children p) ∧
    (s.parent c = none → ∀ p, c ∉ s.children p)

/-- The combined tree invariant: the child list of `p` contains `c`
exactly once when `c`'s parent reference is `p`, and not at all
otherwise.  This implies `AtMostOneParent` and `ParentConsistent`. -/
def TreeInv (s : TreeState) : Prop :=
  ∀ c p, (s.children p).count c = (if s.parent c = some p then 1 else 0)

/-! ## Primary-button press processing

`Component.process_event` (src/component.py lines 102-128) and
`Dispatcher._handle_mouse_click` (src/chain.py lines 67-84) both handle
a `MOUSEBUTTONDOWN` with `button == 1`.  The embedding records, for one
node, everything those code paths read and write: the node's
`passthrough` and `active` flags, whether the press coordinate is inside
the node's absolute rectangle, and the parent's other children (the
node's direct siblings) with their `active` flags, in child-list order.
The output records the consumed flag, the callback events fired in
order, and the new active flags. -/

/-- Kinds of callback events a node can fire (the keys of the `events`
dictionary in `Component.__init__`). -/
inductive EvKind where
  | click | hover | focus | blur | keypress
  deriving DecidableEq, Repr

/-- Context of one primary-button press at one node.  `parent = none`
embeds `self.parent is None`; `parent = some sibs` carries the parent's
other children as (identifier, active) pairs in child-list order. -/
structure ClickCtx where
  passthrough : Bool
  active : Bool
  inside : Bool
  parent : Option (List (Nat × Bool))
  deriving DecidableEq, Repr

/-- Result of processing the press: consumed flag, events fired in order
(`none` tags the node itself, `some i` tags sibling `i`), the node's new
active flag, and the siblings' new (identifier, active) pairs. -/
structure ClickResult where
  consumed : Bool
  fired : List (Option Nat × EvKind)
  active : Bool
  siblings : List (Nat × Bool)
  deriving DecidableEq, Repr

/-- Embedding of `Component.deactivate_container` and `Dispatcher.deactivate_container`
(src/component.py lines 173-177, src/chain.py lines 98-103), restricted
to the children other than the pressed node (`child != root`): every
active sibling becomes inactive and fires `blur`, in child-list
order.  Returns the new sibling states and the fired events. -/
def deactivateContainer :
    List (Nat × Bool) → List (Nat × Bool) × List (Option Nat × EvKind)
  | [] => ([], [])
  | (i, a) :: rest =>
      let r := deactivateContainer rest
      if a then ((i, false) :: r.1, (some i, EvKind.blur) :: r.2)
      else ((i, a) :: r.1, r.2)

/-- Siblings of the node: the parent's other children, or none at all
when the node has no parent. -/
def ClickCtx.sibs (c : ClickCtx) : List (Nat × Bool) :=
  match c.parent with
  | none => []
  | some l => l

/-- The `MOUSEBUTTONDOWN` branch of `Component.process_event`
(src/component.py lines 102-118): a passthrough node never consumes;
inside the rectangle the node first deactivates its container — but only
when it has a parent **and** is not already active — then fires `click`,
sets `active = True`, fires `focus`, and consumes; outside the
rectangle an active node deactivates and fires `blur` without
consuming. -/
def componentProcessEventClick (c : ClickCtx) : ClickResult :=
  if c.passthrough then
    ⟨false, [], c.active, c.sibs⟩
  else if c.inside then
    let sd :=
      match c.parent with
      | some l => if ¬c.active then deactivateContainer l else (l, [])
      | none => ([], [])
    ⟨true, sd.2 ++ [(none, EvKind.click), (none, EvKind.focus)], true, sd.1⟩
  else if c.active then
    ⟨false, [(none, EvKind.blur)], false, c.sibs⟩
  else
    ⟨false, [], c.active, c.sibs⟩

/-- Embedding of `Dispatcher._handle_mouse_click` (src/chain.py lines 67-84), with
the `passthrough` guard of its caller `Dispatcher.process_event`
(src/chain.py lines 56-59): inside the rectangle the node deactivates
its container whenever it has a parent, fires `focus` only when it was
not yet active (setting `active = True`), then fires `click` and
consumes; outside, an active node fires `blur` without consuming. -/
def dispatcherHandleMouseClick (c : ClickCtx) : ClickResult :=
  if c.passthrough then
    ⟨false, [], c.active, c.sibs⟩
  else if c.inside then
    let sd :=
      match c.parent with
      | some l => deactivateContainer l
      | none => ([], [])
    let focusPart := if ¬c.active then [((none : Option Nat), EvKind.focus)] else []
    ⟨true, sd.2 ++ focusPart ++ [(none, EvKind.click)], true, sd.1⟩
  else if c.active then
    ⟨false, [(none, EvKind.blur)], false, c.sibs⟩
  else
    ⟨false, [], c.active, c.sibs⟩

/-- Modelled from the spec's words (the claim's sentence): on a
primary-button press inside the node, every other currently-active
direct sibling under the same parent is deactivated firing `blur`, the
node's `focus` callbacks fire only on the inactive-to-active transition,
the `focus` callbacks fire before the `click` callbacks, and the event
is reported consumed. -/
def specMouseClick (c : ClickCtx) : ClickResult :=
  let sd := deactivateContainer c.sibs
  ⟨true,
   sd.2 ++ (if ¬c.active then [((none : Option Nat), EvKind.focus)] else [])
        ++ [(none, EvKind.click)],
   true, sd.1⟩

/-! ## Destroy lifecycle (src/component.py lines 153-156,
src/window.py lines 114-118)

`Component.destroy` recursively destroys every child, clears the child
list and nulls the parent reference.  The source `Component` never
defines a `terminated` attribute (only the unused `Dispatcher` base in
src/chain.py initialises one), so the attribute is embedded as an
`Option Bool`, `none` meaning the attribute is absent on the object. -/

/-- A component subtree for the destroy claims: address, the optional
`terminated` attribute, the parent back-reference (embedded as the
parent's address), and the ordered child list. -/
inductive Comp where
  | mk (addr : Int) (terminated : Option Bool) (parent : Option Int)
       (children : List Comp)

/-- Address of a component. -/
def Comp.addr : Comp → Int
  | .mk a _ _ _ => a

/-- The optional `terminated` attribute of a component. -/
def Comp.terminated : Comp → Option Bool
  | .mk _ t _ _ => t

/-- Parent back-reference of a component. -/
def Comp.parent : Comp → Option Int
  | .mk _ _ p _ => p

/-- Child list of a component. -/
def Comp.children : Comp → List Comp
  | .mk _ _ _ cs => cs

mutual
/-- Embedding of `Component.destroy` (src/component.py lines 153-156): destroy each
child recursively (post-order), then `self.children.clear()` discards
the destroyed children and `self.parent = None` nulls the back
reference.  Nothing else on the component is touched: the address stays,
no `terminated` flag is written, and the bus is never consulted. -/
def Comp.destroy : Comp → Comp
  | .mk a t _ cs =>
      (fun (_ : List Comp) => Comp.mk a t none []) (Comp.destroyEach cs)

/-- The `for child in self.children[:]: child.destroy()` pass. -/
def Comp.destroyEach : List Comp → List Comp
  | [] => []
  | c :: rest => c.destroy :: Comp.destroyEach rest
end

/-- Embedding of `Window.destroy` (src/window.py lines 114-118): post an `M_BYE`
packet addressed to the resolved root's address, then run the base
`Component.destroy`.  Posting only appends to the bus queue; the
component registry of the bus is untouched. -/
def windowDestroy (w : Comp) (rootAddr : Int) (b : AddressBus) :
    Comp × AddressBus :=
  let b2 := (b.post { receiver := rootAddr, sender := w.addr,
                      rs := Response.M_BYE }).2
  (w.destroy, b2)

/-! ## Window dragging and snapping (src/window.py) -/

/-- The state of a `Window` read by the drag-start and snapping code:
local rectangle, `can_move`, `visible`, and the optional `terminated`
attribute (never assigned by `Component.__init__` or
`Window.__init__`). -/
structure Win where
  x : Int
  y : Int
  w : Int
  h : Int
  canMove : Bool
  visible : Bool
  terminated : Option Bool
  deriving DecidableEq, Repr

/-- Embedding of `pygame.Rect.collidepoint` on the window's absolute rectangle
(`Component.is_inside`): points on the right or bottom edge do not
collide.  `pox, poy` is the absolute origin of the parent chain. -/
def winIsInside (v : Win) (pox poy px py : Int) : Bool :=
  pox + v.x ≤ px && px < pox + v.x + v.w &&
  poy + v.y ≤ py && py < poy + v.y + v.h

/-- Embedding of `Window.hitbox_test` (src/window.py lines 120-126): reject points
outside the absolute rectangle, then test
`local_y < self.height - hitbox_y` where `local_y = point_y - abs_rect.y`. -/
def hitboxTest (v : Win) (pox poy px py : Int) (hitboxY : Int) : Bool :=
  if ¬ winIsInside v pox poy px py then false
  else py - (poy + v.y) < v.h - hitboxY

/-- The `MOUSEBUTTONDOWN`/button-1 branch of `Window.process_event`
(src/window.py lines 36-46) for a movable window: when
`hitbox_test(event.pos)` passes (called with its default `hitbox_y = 0`),
the drag flag is set, the offset of the press from the absolute origin
is captured, and the window is brought to front; the returned value is
`some offset` exactly when a drag begins. -/
def windowDragStart (v : Win) (pox poy px py : Int) : Option (Int × Int) :=
  if v.canMove && hitboxTest v pox poy px py 0 then
    some (px - (pox + v.x), py - (poy + v.y))
  else
    none

/-- One sibling entry of `self.parent.children` as read by
`Window.snap_on`: whether the child is a `Window` instance, its
`visible` flag, the optional `terminated` attribute, and its local
rectangle. -/
structure Sib where
  isWindow : Bool
  visible : Bool
  terminated : Option Bool
  x : Int
  y : Int
  w : Int
  h : Int
  deriving DecidableEq, Repr

/-- The sibling filter of `Window.snap_on` (src/window.py lines
133-139), over the parent's children other than `self`: keep visible
`Window` instances that are not terminated.  Reading `child.terminated`
on an object that has no such attribute raises `AttributeError`, which
the embedding returns as an `Except.error`. -/
def snapFilter : List Sib → Except String (List Sib)
  | [] => .ok []
  | s :: rest =>
      if s.isWindow && s.visible then
        match s.terminated with
        | none => .error "AttributeError: Window object has no attribute terminated"
        | some t => do
            let r ← snapFilter rest
            pure (if ¬t then s :: r else r)
      else
        snapFilter rest

/-- The per-sibling snapping step of `Window.snap_on` (src/window.py
lines 143-160), applied to the accumulated local position `(cx, cy)`.
`my_rect` is computed once before the loop, so the edge comparisons use
the stale absolute rectangle `(myL, myR, myT, myB)` even after earlier
siblings have moved the window. -/
def snapStep (pox poy myL myR myT myB threshold : Int)
    (cxy : Int × Int) (s : Sib) : Int × Int :=
  let tL := pox + s.x
  let tR := tL + s.w
  let tT := poy + s.y
  let tB := tT + s.h
  let cx := if |myL - tL| ≤ threshold then cxy.1 + (tL - myL)
            else if |myR - tR| ≤ threshold then cxy.1 + (tR - myR)
            else cxy.1
  let cy := if |myT - tT| ≤ threshold then cxy.2 + (tT - myT)
            else if |myB - tB| ≤ threshold then cxy.2 + (tB - myB)
            else cxy.2
  (cx, cy)

/-- Embedding of `Window.snap_on` (src/window.py lines 128-160) for a window that has
a parent with absolute origin `(pox, poy)`: filter the siblings, compute
`my_rect` once, then fold the per-sibling snapping over the filtered
list.  The result is the window's new local `(x, y)` — siblings are
never mutated — or the `AttributeError` raised by the filter. -/
def snapOn (v : Win) (pox poy : Int) (siblings : List Sib)
    (threshold : Int := 10) : Except String (Int × Int) := do
  let sibs ← snapFilter siblings
  let myL := pox + v.x
  let myR := myL + v.w
  let myT := poy + v.y
  let myB := myT + v.h
  pure (sibs.foldl (snapStep pox poy myL myR myT myB threshold) (v.x, v.y))

/-! ## Bus lemmas -/

theorem post_components_eq (b : AddressBus) (m : Packet) :
    ((AddressBus.post b m).2).components = b.components := by
  unfold AddressBus.post
  split <;> rfl

theorem foldl_post_components (l : List Packet) (b : AddressBus) :
    (l.foldl (fun s p => (AddressBus.post s p).2) b).components = b.components := by
  induction l generalizing b with
  | nil => rfl
  | cons p rest ih =>
      simp only [List.foldl_cons]
      rw [ih, post_components_eq]

theorem postAll_components (H : Handler) (a : Int) (m : Packet) (b : AddressBus) :
    (postAll H a m b).components = b.components :=
  foldl_post_components _ _

theorem deliverList_components (H : Handler) (as : List Int) (m : Packet)
    (b : AddressBus) : ((deliverList H as m b).1).components = b.components := by
  induction as generalizing b with
  | nil => rfl
  | cons a rest ih =>
      simp only [deliverList]
      rw [ih, postAll_components]

theorem deliverList_deliveries (H : Handler) (as : List Int) (m : Packet)
    (b : AddressBus) :
    (deliverList H as m b).2 = as.map (fun a => (a, m)) := by
  induction as generalizing b with
  | nil => rfl
  | cons a rest ih =>
      simp only [deliverList, List.map_cons]
      rw [ih]

theorem pumpMsg_components (H : Handler) (b : AddressBus) (m : Packet) :
    ((pumpMsg H b m).1).components = b.components := by
  unfold pumpMsg
  split
  · exact deliverList_components H b.components m b
  · split
    · exact postAll_components H m.receiver m b
    · rfl

theorem pumpMsg_deliveries_sub (H : Handler) (b : AddressBus) (m : Packet) :
    ∀ p ∈ (pumpMsg H b m).2, p.2 = m := by
  intro p hp
  unfold pumpMsg at hp
  split at hp
  · rw [deliverList_deliveries] at hp
    obtain ⟨a, _, rfl⟩ := List.mem_map.mp hp
    rfl
  · split at hp
    · simp only [List.mem_singleton] at hp
      rw [hp]
    · simp at hp

theorem pumpMsg_broadcast_complete (H : Handler) (b : AddressBus) (m : Packet)
    (hb : m.receiver = BROADCAST) :
    ∀ a ∈ b.components, (a, m) ∈ (pumpMsg H b m).2 := by
  intro a ha
  unfold pumpMsg
  rw [if_pos hb, deliverList_deliveries]
  exact List.mem_map.mpr ⟨a, ha, rfl⟩

theorem pumpMsg_unicast_complete (H : Handler) (b : AddressBus) (m : Packet)
    (hb : m.receiver ≠ BROADCAST) (hr : m.receiver ∈ b.components) :
    (m.receiver, m) ∈ (pumpMsg H b m).2 := by
  unfold pumpMsg
  rw [if_neg hb, if_pos hr]
  exact List.mem_singleton.mpr rfl

theorem pumpLoop_components (H : Handler) (msgs : List Packet) (b : AddressBus) :
    ((pumpLoop H b msgs).1).components = b.components := by
  induction msgs generalizing b with
  | nil => rfl
  | cons m rest ih =>
      simp only [pumpLoop]
      rw [ih, pumpMsg_components]

theorem pumpLoop_deliveries_sub (H : Handler) (msgs : List Packet)
    (b : AddressBus) : ∀ p ∈ (pumpLoop H b msgs).2, p.2 ∈ msgs := by
  induction msgs generalizing b with
  | nil => intro p hp; simp [pumpLoop] at hp
  | cons m rest ih =>
      intro p hp
      simp only [pumpLoop, List.mem_append] at hp
      rcases hp with hp | hp
      · have := pumpMsg_deliveries_sub H b m p hp
        rw [this]
        exact List.mem_cons_self m rest
      · exact List.mem_cons_of_mem m (ih _ p hp)

theorem pumpLoop_complete (H : Handler) (msgs : List Packet) (b : AddressBus)
    (m : Packet) (hm : m ∈ msgs) :
    (m.receiver = BROADCAST →
       ∀ a ∈ b.components, (a, m) ∈ (pumpLoop H b msgs).2) ∧
    (m.receiver ≠ BROADCAST → m.receiver ∈ b.components →
       (m.receiver, m) ∈ (pumpLoop H b msgs).2) := by
  induction msgs generalizing b with
  | nil => cases hm
  | cons m0 rest ih =>
      rcases List.mem_cons.mp hm with rfl | hm
      · constructor
        · intro hb a ha
          simp only [pumpLoop, List.mem_append]
          exact Or.inl (pumpMsg_broadcast_complete H b m hb a ha)
        · intro hb hr
          simp only [pumpLoop, List.mem_append]
          exact Or.inl (pumpMsg_unicast_complete H b m hb hr)
      · have hc : ((pumpMsg H b m0).1).components = b.components :=
          pumpMsg_components H b m0
        constructor
        · intro hb a ha
          simp only [pumpLoop, List.mem_append]
          exact Or.inr ((ih ((pumpMsg H b m0).1) hm).1 hb a (hc.symm ▸ ha))
        · intro hb hr
          simp only [pumpLoop, List.mem_append]
          exact Or.inr ((ih ((pumpMsg H b m0).1) hm).2 hb (hc.symm ▸ hr))

theorem pump_components (H : Handler) (b : AddressBus) :
    ((AddressBus.pump H b).1).components = b.components := by
  unfold AddressBus.pump
  split
  · rfl
  · exact pumpLoop_components H b.messages _

theorem pump_deliveries_sub (H : Handler) (b : AddressBus) :
    ∀ p ∈ (AddressBus.pump H b).2, p.2 ∈ b.messages := by
  intro p hp
  unfold AddressBus.pump at hp
  split at hp
  · simp at hp
  · exact pumpLoop_deliveries_sub H b.messages _ p hp

theorem pump_complete (H : Handler) (b : AddressBus) (m : Packet)
    (hm : m ∈ b.messages) :
    (m.receiver = BROADCAST →
       ∀ a ∈ b.components, (a, m) ∈ (AddressBus.pump H b).2) ∧
    (m.receiver ≠ BROADCAST → m.receiver ∈ b.components →
       (m.receiver, m) ∈ (AddressBus.pump H b).2) := by
  have hne : b.messages ≠ [] := by
    intro h; rw [h] at hm; cases hm
  unfold AddressBus.pump
  rw [if_neg hne]
  exact pumpLoop_complete H b.messages { b with messages := [] } m hm

/-- C4: posting to a bus whose queue holds exactly `maxQueueSize`
envelopes returns `false` and leaves the bus (queue included) unchanged;
posting to a bus with room returns `true` and grows the queue by exactly
one envelope; the default capacity is 255.  `post` is a total function,
so it never blocks. -/
theorem post_full_fails_post_room_appends (b : AddressBus) (m : Packet) :
    (b.messages.length = b.maxQueueSize →
       (AddressBus.post b m).1 = false ∧ (AddressBus.post b m).2 = b) ∧
    (b.messages.length < b.maxQueueSize →
       (AddressBus.post b m).1 = true ∧
       ((AddressBus.post b m).2).messages.length = b.messages.length + 1) ∧
    defaultMaxQueueSize = 255 := by
  refine ⟨fun h => ?_, fun h => ?_, rfl⟩
  · have hge : b.maxQueueSize ≤ b.messages.length := le_of_eq h.symm
    unfold AddressBus.post
    rw [if_pos hge]
    exact ⟨rfl, rfl⟩
  · have hlt : ¬ b.maxQueueSize ≤ b.messages.length := not_le.mpr h
    unfold AddressBus.post
    rw [if_neg hlt]
    exact ⟨rfl, by simp⟩

/-- Witness for C4: a bus with capacity 2 and two queued envelopes
rejects a post unchanged; an empty bus with capacity 2 accepts and ends
with one queued envelope. -/
theorem post_full_fails_post_room_appends_witness :
    (AddressBus.post ⟨[⟨0, 0, Response.M_OK, 0⟩, ⟨0, 0, Response.M_OK, 0⟩], [], 2⟩
        ⟨1, 0, Response.M_OK, 0⟩).1 = false ∧
    (AddressBus.post ⟨[⟨0, 0, Response.M_OK, 0⟩, ⟨0, 0, Response.M_OK, 0⟩], [], 2⟩
        ⟨1, 0, Response.M_OK, 0⟩).2 =
      ⟨[⟨0, 0, Response.M_OK, 0⟩, ⟨0, 0, Response.M_OK, 0⟩], [], 2⟩ ∧
    (AddressBus.post ⟨[], [], 2⟩ ⟨1, 0, Response.M_OK, 0⟩).1 = true ∧
    ((AddressBus.post ⟨[], [], 2⟩ ⟨1, 0, Response.M_OK, 0⟩).2).messages.length = 1 := by
  have h1 := post_full_fails_post_room_appends
    ⟨[⟨0, 0, Response.M_OK, 0⟩, ⟨0, 0, Response.M_OK, 0⟩], [], 2⟩ ⟨1, 0, Response.M_OK, 0⟩
  have h2 := post_full_fails_post_room_appends ⟨[], [], 2⟩ ⟨1, 0, Response.M_OK, 0⟩
  exact ⟨(h1.1 rfl).1, (h1.1 rfl).2, (h2.2.1 (by decide)).1, (h2.2.1 (by decide)).2⟩

/-- C3: every delivery a `pump` call performs takes its envelope from
the queue as it stood when the call began, so an envelope first posted
by a handler during the call (which lands in the freshly swapped-in
queue, the queue of `(pump H b).1`) is not delivered during that call;
and every envelope sitting in the post-pump queue is delivered by the
next `pump` call, to its receiver when the receiver is then registered,
and to every registered component when it is a broadcast. -/
theorem pump_defers_handler_posts (H : Handler) (b : AddressBus) :
    (∀ p ∈ (AddressBus.pump H b).2, p.2 ∈ b.messages) ∧
    (∀ m ∈ ((AddressBus.pump H b).1).messages,
       (m.receiver = BROADCAST →
          ∀ a ∈ ((AddressBus.pump H b).1).components,
            (a, m) ∈ (AddressBus.pump H (AddressBus.pump H b).1).2) ∧
       (m.receiver ≠ BROADCAST →
          m.receiver ∈ ((AddressBus.pump H b).1).components →
          (m.receiver, m) ∈ (AddressBus.pump H (AddressBus.pump H b).1).2)) :=
  ⟨pump_deliveries_sub H b, fun m hm => pump_complete H _ m hm⟩

/-- Witness for C3: a bus with components 0 and 5 and a queued broadcast
`M_PING` from 5, with handlers behaving as `Component.handle_message`.
The first pump delivers the ping to component 0 (an envelope of the
original queue) and component 0 posts an `M_PONG` to 5 during the pump;
the pong sits in the post-pump queue and the next pump delivers it
to component 5. -/
theorem pump_defers_handler_posts_witness :
    ((0, (⟨BROADCAST, 5, Response.M_PING, 0⟩ : Packet)) ∈
        (AddressBus.pump (fun a m => (componentHandleMessage a m).posts)
          ⟨[⟨BROADCAST, 5, Response.M_PING, 0⟩], [0, 5], 8⟩).2 ∧
      (⟨BROADCAST, 5, Response.M_PING, 0⟩ : Packet) ∈
        ([⟨BROADCAST, 5, Response.M_PING, 0⟩] : List Packet)) ∧
    ((⟨5, 0, Response.M_PONG, 0⟩ : Packet) ∈
        ((AddressBus.pump (fun a m => (componentHandleMessage a m).posts)
          ⟨[⟨BROADCAST, 5, Response.M_PING, 0⟩], [0, 5], 8⟩).1).messages ∧
      (5, (⟨5, 0, Response.M_PONG, 0⟩ : Packet)) ∈
        (AddressBus.pump (fun a m => (componentHandleMessage a m).posts)
          (AddressBus.pump (fun a m => (componentHandleMessage a m).posts)
            ⟨[⟨BROADCAST, 5, Response.M_PING, 0⟩], [0, 5], 8⟩).1).2) := by
  refine ⟨⟨?_, by decide⟩, by decide, ?_⟩
  · exact (by decide :
      (0, (⟨BROADCAST, 5, Response.M_PING, 0⟩ : Packet)) ∈
        (AddressBus.pump (fun a m => (componentHandleMessage a m).posts)
          ⟨[⟨BROADCAST, 5, Response.M_PING, 0⟩], [0, 5], 8⟩).2)
  · exact ((pump_defers_handler_posts
        (fun a m => (componentHandleMessage a m).posts)
        ⟨[⟨BROADCAST, 5, Response.M_PING, 0⟩], [0, 5], 8⟩).2
        ⟨5, 0, Response.M_PONG, 0⟩ (by decide)).2 (by decide) (by decide)

/-- C5: every broadcast envelope sitting in the queue when `pump` is
called is delivered to every registered component (the registry is
constant during a pump, since no handler of the source registers or
unregisters, so the per-envelope snapshot equals the registry at pump
start); and `Component.handle_message` does not react at all — no posts,
no destroy, no reset — to an envelope whose sender equals the
component's own address. -/
theorem broadcast_reaches_all_no_loopback (H : Handler) (b : AddressBus) :
    (∀ m ∈ b.messages, m.receiver = BROADCAST →
       ∀ a ∈ b.components, (a, m) ∈ (AddressBus.pump H b).2) ∧
    (∀ a msg, msg.sender = a →
       componentHandleMessage a msg = ⟨[], false, false⟩) := by
  constructor
  · intro m hm hb a ha
    exact (pump_complete H b m hm).1 hb a ha
  · intro a msg h
    unfold componentHandleMessage
    rw [if_pos h]

/-- Witness for C5: with components 0, 1 and 2 registered and a queued
broadcast from 2, one pump delivers the envelope to components 0, 1 and
2; and a component at address 3 handling an envelope sent by 3 does
nothing. -/
theorem broadcast_reaches_all_no_loopback_witness :
    ((1, (⟨BROADCAST, 2, Response.M_PULSE, 0⟩ : Packet)) ∈
        (AddressBus.pump (fun _ _ => [])
          ⟨[⟨BROADCAST, 2, Response.M_PULSE, 0⟩], [0, 1, 2], 255⟩).2) ∧
    componentHandleMessage 3 ⟨BROADCAST, 3, Response.M_PING, 0⟩ =
      ⟨[], false, false⟩ := by
  refine ⟨?_, ?_⟩
  · exact (broadcast_reaches_all_no_loopback (fun _ _ => [])
      ⟨[⟨BROADCAST, 2, Response.M_PULSE, 0⟩], [0, 1, 2], 255⟩).1
      ⟨BROADCAST, 2, Response.M_PULSE, 0⟩ (by decide) (by decide) 1 (by decide)
  · exact (broadcast_reaches_all_no_loopback (fun _ _ => [])
      ⟨[⟨BROADCAST, 2, Response.M_PULSE, 0⟩], [0, 1, 2], 255⟩).2
      3 ⟨BROADCAST, 3, Response.M_PING, 0⟩ (by decide)

/-- C10: the `BROADCAST` sentinel and the address a component holds
before any registration are the same value −1, so an envelope addressed
with the address of a never-registered component is treated by `pump` as
a broadcast and delivered to every registered component, rather than
being a silent unicast no-op. -/
theorem unregistered_sentinel_is_broadcast (H : Handler) (b : AddressBus)
    (m : Packet) :
    componentInitialAddress = BROADCAST ∧
    (m ∈ b.messages → m.receiver = componentInitialAddress →
       ∀ a ∈ b.components, (a, m) ∈ (AddressBus.pump H b).2) := by
  refine ⟨rfl, fun hm hr a ha => ?_⟩
  exact (pump_complete H b m hm).1 hr a ha

/-- Witness for C10: an envelope whose receiver field still holds a
never-registered component's address −1 is delivered to both registered
components 0 and 1. -/
theorem unregistered_sentinel_is_broadcast_witness :
    componentInitialAddress = BROADCAST ∧
    (0, (⟨componentInitialAddress, 7, Response.M_OK, 0⟩ : Packet)) ∈
      (AddressBus.pump (fun _ _ => [])
        ⟨[⟨componentInitialAddress, 7, Response.M_OK, 0⟩], [0, 1], 255⟩).2 ∧
    (1, (⟨componentInitialAddress, 7, Response.M_OK, 0⟩ : Packet)) ∈
      (AddressBus.pump (fun _ _ => [])
        ⟨[⟨componentInitialAddress, 7, Response.M_OK, 0⟩], [0, 1], 255⟩).2 := by
  have h := unregistered_sentinel_is_broadcast (fun _ _ => [])
    ⟨[⟨componentInitialAddress, 7, Response.M_OK, 0⟩], [0, 1], 255⟩
    ⟨componentInitialAddress, 7, Response.M_OK, 0⟩
  exact ⟨h.1, h.2 (by decide) (by decide) 0 (by decide),
    h.2 (by decide) (by decide) 1 (by decide)⟩

/-! ## Geometry lemmas -/

theorem absFrom_eq (p : CompG) (x y : Int) :
    absFrom p x y =
      (x + p.rectOf.x + ((p.ancestorRects).map Rect.x).sum,
       y + p.rectOf.y + ((p.ancestorRects).map Rect.y).sum) := by
  induction p generalizing x y with
  | top r =>
      simp [absFrom, CompG.rectOf, CompG.ancestorRects]
  | sub r pp ih =>
      simp only [absFrom, CompG.rectOf, CompG.ancestorRects, ih,
        List.map_cons, List.sum_cons, Prod.mk.injEq]
      constructor <;> ring

/-- C6: for every node of an (acyclic) parent chain of any depth, the
absolute rectangle computed by `get_absolute_rect` has as origin the
node's local origin plus the sum of the local origins of all its
ancestors, and the node's own width and height. -/
theorem absolute_rect_is_ancestor_sum (c : CompG) :
    c.getAbsoluteRect =
      ⟨c.rectOf.x + ((c.ancestorRects).map Rect.x).sum,
       c.rectOf.y + ((c.ancestorRects).map Rect.y).sum,
       c.rectOf.w, c.rectOf.h⟩ := by
  cases c with
  | top r => simp [CompG.getAbsoluteRect, CompG.rectOf, CompG.ancestorRects]
  | sub r p =>
      simp only [CompG.getAbsoluteRect, CompG.rectOf, CompG.ancestorRects,
        absFrom_eq, List.map_cons, List.sum_cons, Rect.mk.injEq]
      refine ⟨by ring, by ring, trivial, trivial⟩

/-! ## Tree-invariant lemmas -/

theorem treeInv_parent_of_mem {s : TreeState} (h : TreeInv s) {c q : Nat}
    (hm : c ∈ s.children q) : s.parent c = some q := by
  by_contra hne
  have h0 := h c q
  rw [if_neg hne] at h0
  exact (List.count_eq_zero.mp h0) hm

theorem treeInv_count_one {s : TreeState} (h : TreeInv s) {c q : Nat}
    (hm : c ∈ s.children q) : (s.children q).count c = 1 := by
  rw [h c q, if_pos (treeInv_parent_of_mem h hm)]

theorem treeInv_not_mem {s : TreeState} (h : TreeInv s) {c : Nat}
    (hp : s.parent c = none) (p : Nat) : c ∉ s.children p := by
  apply List.count_eq_zero.mp
  rw [h c p, hp]
  simp

theorem treeInv_mem_of_parent {s : TreeState} (h : TreeInv s) {c q : Nat}
    (hp : s.parent c = some q) : c ∈ s.children q := by
  by_contra hm
  have h0 := h c q
  rw [if_pos hp, List.count_eq_zero.mpr hm] at h0
  exact one_ne_zero h0.symm

theorem removeChild_inv (q c : Nat) (s : TreeState) (h : TreeInv s) :
    TreeInv (removeChild q c s) := by
  unfold removeChild
  split
  case isTrue hmem =>
    intro d p
    have hpar := treeInv_parent_of_mem h hmem
    by_cases hdc : d = c
    · subst hdc
      dsimp only
      rw [if_pos rfl]
      rw [if_neg (fun he => Option.noConfusion he)]
      by_cases hpq : p = q
      · subst hpq
        rw [if_pos rfl, List.count_erase_self, treeInv_count_one h hmem]
      · rw [if_neg hpq]
        have h0 := h d p
        rw [if_neg (by rw [hpar]; exact fun he => hpq (Option.some.inj he).symm)] at h0
        exact h0
    · dsimp only
      rw [if_neg hdc]
      by_cases hpq : p = q
      · subst hpq
        rw [if_pos rfl, List.count_erase_of_ne hdc]
        exact h d p
      · rw [if_neg hpq]
        exact h d p
  case isFalse _ => exact h

theorem removeChild_parent_none (q c : Nat) (s : TreeState)
    (hmem : c ∈ s.children q) : (removeChild q c s).parent c = none := by
  unfold removeChild
  rw [if_pos hmem]
  dsimp only
  rw [if_pos rfl]

theorem addChild_core (p c : Nat) (s1 : TreeState) (h : TreeInv s1)
    (hc : s1.parent c = none) :
    TreeInv ⟨fun r => if r = p then s1.children p ++ [c] else s1.children r,
             fun d => if d = c then some p else s1.parent d⟩ := by
  intro d r
  by_cases hdc : d = c
  · subst hdc
    dsimp only
    rw [if_pos rfl]
    by_cases hrp : r = p
    · subst hrp
      rw [if_pos rfl, List.count_append]
      rw [List.count_eq_zero.mpr (treeInv_not_mem h hc r)]
      simp
    · rw [if_neg hrp, List.count_eq_zero.mpr (treeInv_not_mem h hc r)]
      rw [if_neg (fun he => hrp (Option.some.inj he).symm)]
  · dsimp only
    rw [if_neg hdc]
    by_cases hrp : r = p
    · subst hrp
      rw [if_pos rfl, List.count_append]
      have : List.count d [c] = 0 := by
        simp [List.count_singleton, hdc]
      rw [this, Nat.add_zero]
      exact h d r
    · rw [if_neg hrp]
      exact h d r

theorem addChild_inv (p c : Nat) (s : TreeState) (h : TreeInv s) :
    TreeInv (addChild p c s) := by
  unfold addChild
  cases hpc : s.parent c with
  | none =>
      simp only [hpc]
      exact addChild_core p c s h hpc
  | some q =>
      simp only [hpc]
      exact addChild_core p c (removeChild q c s) (removeChild_inv q c s h)
        (removeChild_parent_none q c s (treeInv_mem_of_parent h hpc))

theorem applyOps_inv (ops : List TreeOp) (s : TreeState) (h : TreeInv s) :
    TreeInv (applyOps ops s) := by
  induction ops generalizing s with
  | nil => exact h
  | cons o rest ih =>
      cases o with
      | add p c => exact ih (addChild p c s) (addChild_inv p c s h)
      | rem p c => exact ih (removeChild p c s) (removeChild_inv p c s h)

theorem treeInv_atMostOne {s : TreeState} (h : TreeInv s) :
    AtMostOneParent s := by
  intro c p q hp hq
  have h1 := treeInv_parent_of_mem h hp
  have h2 := treeInv_parent_of_mem h hq
  rw [h1] at h2
  exact Option.some.inj h2

theorem treeInv_parentConsistent {s : TreeState} (h : TreeInv s) :
    ParentConsistent s := by
  intro c
  exact ⟨fun p hp => treeInv_mem_of_parent h hp, fun hn p => treeInv_not_mem h hn p⟩

/-- C7 (amended): starting from a state in which each component appears
in at most one child list, at most once, and every component's parent
reference points to the parent containing it (null when it is contained
nowhere) — the `TreeInv` invariant — any sequence of `add` and `remove`
operations preserves the invariant, so afterwards every component still
appears in at most one parent's child list and its parent reference
points to the unique parent whose list contains it, or is null. -/
theorem tree_ops_preserve_unique_parent (ops : List TreeOp) (s : TreeState)
    (h : TreeInv s) :
    TreeInv (applyOps ops s) ∧ AtMostOneParent (applyOps ops s) ∧
      ParentConsistent (applyOps ops s) := by
  have hinv := applyOps_inv ops s h
  exact ⟨hinv, treeInv_atMostOne hinv, treeInv_parentConsistent hinv⟩

/-- Witness for C7: a consistent two-component state (component 2 is the
sole child of component 1) keeps the unique-parent property after the
reparenting sequence `3.add(2)` then `3.remove(2)`. -/
theorem tree_ops_preserve_unique_parent_witness :
    AtMostOneParent (applyOps [TreeOp.add 3 2, TreeOp.rem 3 2]
      ⟨fun p => if p = 1 then [2] else [],
       fun c => if c = 2 then some 1 else none⟩) ∧
    ParentConsistent (applyOps [TreeOp.add 3 2, TreeOp.rem 3 2]
      ⟨fun p => if p = 1 then [2] else [],
       fun c => if c = 2 then some 1 else none⟩) := by
  have h := tree_ops_preserve_unique_parent [TreeOp.add 3 2, TreeOp.rem 3 2]
    ⟨fun p => if p = 1 then [2] else [],
     fun c => if c = 2 then some 1 else none⟩ ?_
  · exact ⟨h.2.1, h.2.2⟩
  · intro c p
    dsimp only
    by_cases hc : c = 2 <;> by_cases hp : p = 1 <;>
      simp [hc, hp, List.count_cons, eq_comm]

/-- Counterexample for C7 as stated: the claim's precondition asks only
that each component appear in at most one child list.  In the state
where component 2 sits in component 1's child list but 2's parent
reference is null (which satisfies that precondition), `3.add(2)` finds
no parent reference to detach, so afterwards component 2 appears in the
child lists of both 1 and 3. -/
theorem tree_ops_at_most_one_counterexample :
    AtMostOneParent ⟨fun p => if p = 1 then [2] else [], fun _ => none⟩ ∧
    ¬ AtMostOneParent (applyOps [TreeOp.add 3 2]
        ⟨fun p => if p = 1 then [2] else [], fun _ => none⟩) := by
  constructor
  · intro c p q hp hq
    dsimp only at hp hq
    by_cases h1 : p = 1
    · by_cases h2 : q = 1
      · rw [h1, h2]
      · rw [if_neg h2] at hq; cases hq
    · rw [if_neg h1] at hp; cases hp
  · intro h
    have h1 : (2 : Nat) ∈ (applyOps [TreeOp.add 3 2]
        ⟨fun p => if p = 1 then [2] else [], fun _ => none⟩).children 1 := by
      decide
    have h3 : (2 : Nat) ∈ (applyOps [TreeOp.add 3 2]
        ⟨fun p => if p = 1 then [2] else [], fun _ => none⟩).children 3 := by
      decide
    exact absurd (h 2 1 3 h1 h3) (by decide)

/-! ## Press-processing theorems -/

/-- C2 (amended): for a primary-button press inside a non-passthrough
node, the `Dispatcher` base of src/chain.py behaves exactly as the claim
states (active siblings blurred, `focus` only on the inactive-to-active
transition, `focus` before `click`, consumed); the `Component` base of
src/component.py — the one every widget of the program extends — instead
deactivates its active siblings only when the node was not already
active, fires `click` before `focus`, fires `focus` on every consuming
press regardless of the prior active state, and reports consumed. -/
theorem press_inside_component_vs_dispatcher (c : ClickCtx)
    (hin : c.inside = true) (hpt : c.passthrough = false) :
    dispatcherHandleMouseClick c = specMouseClick c ∧
    componentProcessEventClick c =
      ⟨true,
       (if c.active then [] else (deactivateContainer c.sibs).2)
         ++ [(none, EvKind.click), (none, EvKind.focus)],
       true,
       if c.active then c.sibs else (deactivateContainer c.sibs).1⟩ := by
  cases hp : c.parent <;> cases ha : c.active <;>
    simp [componentProcessEventClick, dispatcherHandleMouseClick,
      specMouseClick, ClickCtx.sibs, hpt, hin, hp, ha, deactivateContainer]

/-- Witness for C2: a not-yet-active node with one active sibling,
pressed inside. -/
theorem press_inside_component_vs_dispatcher_witness :
    dispatcherHandleMouseClick ⟨false, false, true, some [(7, true)]⟩ =
      specMouseClick ⟨false, false, true, some [(7, true)]⟩ ∧
    componentProcessEventClick ⟨false, false, true, some [(7, true)]⟩ =
      ⟨true, [(some 7, EvKind.blur), (none, EvKind.click), (none, EvKind.focus)],
       true, [(7, false)]⟩ := by
  have h := press_inside_component_vs_dispatcher
    ⟨false, false, true, some [(7, true)]⟩ rfl rfl
  exact ⟨h.1, h.2.trans (by decide)⟩

/-- Counterexample for C2 as stated: an already-active `Component` node
with one active sibling, pressed inside.  `Component.process_event`
skips sibling deactivation (the sibling stays active, no `blur`), fires
`click` before `focus`, and fires `focus` although the node was already
active — each contradicting the claimed behaviour, which is shown
alongside. -/
theorem component_press_counterexample :
    componentProcessEventClick ⟨false, true, true, some [(7, true)]⟩ =
      ⟨true, [(none, EvKind.click), (none, EvKind.focus)], true, [(7, true)]⟩ ∧
    specMouseClick ⟨false, true, true, some [(7, true)]⟩ =
      ⟨true, [(some 7, EvKind.blur), (none, EvKind.click)], true, [(7, false)]⟩ ∧
    componentProcessEventClick ⟨false, true, true, some [(7, true)]⟩ ≠
      specMouseClick ⟨false, true, true, some [(7, true)]⟩ := by
  decide

/-! ## Destroy theorems -/

/-- C1 (amended): after `Component.destroy` the node's child list is
empty and its parent reference is null, and the node's address is kept;
but no `terminated` flag is written (the attribute, absent on every
`Component`, stays exactly as it was) and no address is removed from the
bus registry — `Window.destroy` merely posts an `M_BYE` envelope
addressed to the root before the base destroy, leaving the registered
components unchanged. -/
theorem destroy_clears_children_and_parent (c : Comp) (rootAddr : Int)
    (b : AddressBus) :
    (Comp.destroy c).children = [] ∧
    (Comp.destroy c).parent = none ∧
    (Comp.destroy c).terminated = c.terminated ∧
    (Comp.destroy c).addr = c.addr ∧
    (windowDestroy c rootAddr b).1 = Comp.destroy c ∧
    ((windowDestroy c rootAddr b).2).components = b.components := by
  cases c with
  | mk a t p cs =>
      refine ⟨rfl, rfl, rfl, rfl, rfl, ?_⟩
      exact post_components_eq b _

/-- Counterexample for C1 as stated: destroying a component (address 5,
one child of address 6, both registered on the bus) does not leave
`terminated == true` — the attribute was never created, and destroy does
not write it — and removes no address from the bus registry, which still
holds 0, 5 and 6 afterwards. -/
theorem destroy_counterexample :
    (Comp.destroy (Comp.mk 5 none (some 0)
        [Comp.mk 6 none (some 5) []])).terminated ≠ some true ∧
    ((windowDestroy (Comp.mk 5 none (some 0) [Comp.mk 6 none (some 5) []]) 0
        ⟨[], [0, 5, 6], 255⟩).2).components = [0, 5, 6] := by
  exact ⟨fun h => Option.noConfusion h, rfl⟩

/-! ## Window drag and snap theorems -/

/-- C8, evaluated at the failing input: a movable 200×150 window whose
absolute origin is (0, 0), pressed at (10, 100).  The press is inside
the window but 100 units below its top — far below any header band (the
builders use 24-unit headers) — yet `hitbox_test`, called by
`process_event` with its default `hitbox_y = 0`, tests
`local_y < height - 0` and accepts, so the drag starts and captures
offset (10, 100).  The claim's header-height threshold is never
consulted. -/
theorem window_drag_starts_below_header :
    hitboxTest ⟨0, 0, 200, 150, true, true, none⟩ 0 0 10 100 0 = true ∧
    windowDragStart ⟨0, 0, 200, 150, true, true, none⟩ 0 0 10 100 =
      some (10, 100) ∧
    (24 : Int) ≤ 100 := by
  decide

/-- C9, evaluated at the failing input: `snap_on` on a dragged window
whose parent holds one other visible window (left edges 4 units apart,
within the snap threshold 10) stops with an `AttributeError` instead of
snapping, because the sibling filter reads `child.terminated` and
neither `Component.__init__` nor `Window.__init__` ever creates that
attribute.  No position adjustment is reached. -/
theorem snap_on_raises_attribute_error :
    snapOn ⟨0, 0, 200, 150, true, true, none⟩ 0 0
        [⟨true, true, none, 4, 300, 200, 150⟩] 10 =
      Except.error "AttributeError: Window object has no attribute terminated" := by
  rfl

end PyGui
